import Mathlib

set_option maxHeartbeats 1000000

/-!
Shallow embedding of the secret-key parameter subsystem of the rPGP
repository (src/types/params/plain_secret.rs) and of the one-pass-signature
packet codec (src/packet/one_pass_signature.rs), together with proofs about
the embedded definitions.

Bytes are modelled as natural numbers (`Nat`), byte strings as `List Nat`;
machine-width truncation (`as u8` casts, `u16` wrap-around) is written
explicitly with `% 256` / `% 65536` where the source performs it.

External collaborators that live outside the two embedded source files
(the MPI codec, the checksum providers, the enumeration registries, the
string-to-key derivation, the block cipher, the SHA-1 digest, the RSA
validation routine) are modelled from the specification: each such
definition carries a doc comment starting with `Modelled from the spec:`.
Fully opaque primitives (SHA-1, the block cipher, RSA validation) are
passed to the embedded functions as explicit function arguments.
-/

namespace RPGP

/-- Result of a streaming byte parser, mirroring nom's `IResult`:
success carries the remaining input and the parsed value; `incomplete`
mirrors `nom::Err::Incomplete` (more bytes needed); `error` mirrors
`nom::Err::Error` (malformed content). -/
inductive ParseResult (α : Type) where
  | ok (rest : List Nat) (value : α)
  | incomplete
  | error
  deriving DecidableEq

/-- Sequencing of streaming parsers, mirroring nom's `do_parse!` chaining. -/
def ParseResult.bind {α β : Type} (p : ParseResult α) (f : List Nat → α → ParseResult β) :
    ParseResult β :=
  match p with
  | .ok r v => f r v
  | .incomplete => .incomplete
  | .error => .error

/-- Scoped model of the library error type (`errors::Error`) as it is used by
the embedded code: `Unsupported` is produced by `unsupported_err!`,
`Unimplemented` by `unimplemented_err!`, and `Message` by `ensure_eq!`-style
bail-outs carrying a plain message. -/
inductive PgpError where
  | Unsupported (msg : String)
  | Unimplemented (msg : String)
  | Message (msg : String)
  deriving DecidableEq

/-- Outcome of `from_slice`-style entry points: either a value, an
incomplete-input error, or a malformed-content error. -/
inductive ParseErr where
  | Incomplete
  | Invalid
  deriving DecidableEq

/-- Modelled from the spec: the number of significant bits of a single byte
(`8 - leading_zeros` for a `u8`).  Used by the MPI writer, which prefixes a
field with its bit length.  Only byte values (`b < 256`) are meaningful. -/
def byteBits (b : Nat) : Nat :=
  if b = 0 then 0
  else if b < 2 then 1
  else if b < 4 then 2
  else if b < 8 then 3
  else if b < 16 then 4
  else if b < 32 then 5
  else if b < 64 then 6
  else if b < 128 then 7
  else 8

/-- Modelled from the spec: the bit length of a big-endian byte string whose
leading zero bytes have already been stripped. -/
def bit_size (v : List Nat) : Nat :=
  match v with
  | [] => 0
  | h :: t => byteBits h + 8 * t.length

/-- Modelled from the spec: the MPI writer (`util::write_mpi`, consumed as a
primitive).  Per the spec's glossary an MPI is "a length-prefixed big-endian
unsigned-integer encoding (2-byte bit-length header + minimal big-endian
bytes)", so leading zero bytes are stripped and the two header bytes are the
bit length, written big-endian with `as u8` truncation. -/
def write_mpi (value : List Nat) : List Nat :=
  let v := value.dropWhile (· == 0)
  let size := bit_size v
  (size / 256 % 256) :: (size % 256) :: v

/-- Modelled from the spec: the MPI reader (`util::mpi`, consumed as a
primitive).  "Each MPI read consumes a 2-byte bit-length prefix followed by
the minimum number of bytes to hold that many bits; running out of input
before the declared length is an incomplete-input condition." -/
def mpi (i : List Nat) : ParseResult (List Nat) :=
  match i with
  | b0 :: b1 :: rest =>
      let n := (b0 * 256 + b1 + 7) / 8
      if n ≤ rest.length then .ok (rest.drop n) (rest.take n) else .incomplete
  | _ => .incomplete

/-- Modelled from the spec: the public-key-algorithm enumeration
(`crypto::PublicKeyAlgorithm`, an external registry following the RFC 4880
values referenced by the source). -/
inductive PublicKeyAlgorithm where
  | RSA
  | RSAEncrypt
  | RSASign
  | Elgamal
  | DSA
  | ECDH
  | ECDSA
  | ElgamalSign
  | DiffieHellman
  | EdDSA
  deriving DecidableEq

/-- Modelled from the spec: the numeric tag of each public-key algorithm
(the `as u8` cast of the Rust enum discriminant). -/
def PublicKeyAlgorithm.toU8 : PublicKeyAlgorithm → Nat
  | .RSA => 1
  | .RSAEncrypt => 2
  | .RSASign => 3
  | .Elgamal => 16
  | .DSA => 17
  | .ECDH => 18
  | .ECDSA => 19
  | .ElgamalSign => 20
  | .DiffieHellman => 21
  | .EdDSA => 22

/-- All public-key-algorithm variants, in declaration order. -/
def PublicKeyAlgorithm.all : List PublicKeyAlgorithm :=
  [.RSA, .RSAEncrypt, .RSASign, .Elgamal, .DSA, .ECDH, .ECDSA, .ElgamalSign,
   .DiffieHellman, .EdDSA]

/-- Modelled from the spec: `PublicKeyAlgorithm::from_u8` (derived
`FromPrimitive`), the partial inverse of the discriminant. -/
def PublicKeyAlgorithm.from_u8 (b : Nat) : Option PublicKeyAlgorithm :=
  PublicKeyAlgorithm.all.find? (fun t => t.toU8 == b)

/-- Modelled from the spec: the signature-type enumeration
(`packet::signature::SignatureType`, a closed enumeration from RFC 4880). -/
inductive SignatureType where
  | Binary
  | Text
  | Standalone
  | CertGeneric
  | CertPersona
  | CertCasual
  | CertPositive
  | SubkeyBinding
  | KeyBinding
  | Key
  | KeyRevocation
  | SubkeyRevocation
  | CertRevocation
  | Timestamp
  | ThirdParty
  deriving DecidableEq

/-- Modelled from the spec: the numeric tag of each signature type. -/
def SignatureType.toU8 : SignatureType → Nat
  | .Binary => 0x00
  | .Text => 0x01
  | .Standalone => 0x02
  | .CertGeneric => 0x10
  | .CertPersona => 0x11
  | .CertCasual => 0x12
  | .CertPositive => 0x13
  | .SubkeyBinding => 0x18
  | .KeyBinding => 0x19
  | .Key => 0x1F
  | .KeyRevocation => 0x20
  | .SubkeyRevocation => 0x28
  | .CertRevocation => 0x30
  | .Timestamp => 0x40
  | .ThirdParty => 0x50

/-- All signature-type variants, in declaration order. -/
def SignatureType.all : List SignatureType :=
  [.Binary, .Text, .Standalone, .CertGeneric, .CertPersona, .CertCasual,
   .CertPositive, .SubkeyBinding, .KeyBinding, .Key, .KeyRevocation,
   .SubkeyRevocation, .CertRevocation, .Timestamp, .ThirdParty]

/-- Modelled from the spec: `SignatureType::from_u8`. -/
def SignatureType.from_u8 (b : Nat) : Option SignatureType :=
  SignatureType.all.find? (fun t => t.toU8 == b)

/-- Modelled from the spec: the hash-algorithm enumeration
(`crypto::hash::HashAlgorithm`, a closed enumeration from RFC 4880). -/
inductive HashAlgorithm where
  | None
  | MD5
  | SHA1
  | RIPEMD160
  | SHA256
  | SHA384
  | SHA512
  | SHA224
  deriving DecidableEq

/-- Modelled from the spec: the numeric tag of each hash algorithm. -/
def HashAlgorithm.toU8 : HashAlgorithm → Nat
  | .None => 0
  | .MD5 => 1
  | .SHA1 => 2
  | .RIPEMD160 => 3
  | .SHA256 => 8
  | .SHA384 => 9
  | .SHA512 => 10
  | .SHA224 => 11

/-- All hash-algorithm variants, in declaration order. -/
def HashAlgorithm.all : List HashAlgorithm :=
  [.None, .MD5, .SHA1, .RIPEMD160, .SHA256, .SHA384, .SHA512, .SHA224]

/-- Modelled from the spec: `HashAlgorithm::from_u8`. -/
def HashAlgorithm.from_u8 (b : Nat) : Option HashAlgorithm :=
  HashAlgorithm.all.find? (fun t => t.toU8 == b)

/-- Modelled from the spec: the elliptic-curve registry (`crypto::ECCCurve`),
an external curve registry consumed through `oid()` accessors. -/
inductive ECCCurve where
  | Curve25519
  | Ed25519
  | P256
  | P384
  | P521
  deriving DecidableEq

/-- Modelled from the spec: `ECCCurve::oid`, the curve's object identifier. -/
def ECCCurve.oid : ECCCurve → List Nat
  | .Curve25519 => [0x2B, 0x06, 0x01, 0x04, 0x01, 0x97, 0x55, 0x01, 0x05, 0x01]
  | .Ed25519 => [0x2B, 0x06, 0x01, 0x04, 0x01, 0xDA, 0x47, 0x0F, 0x01]
  | .P256 => [0x2A, 0x86, 0x48, 0xCE, 0x3D, 0x03, 0x01, 0x07]
  | .P384 => [0x2B, 0x81, 0x04, 0x00, 0x22]
  | .P521 => [0x2B, 0x81, 0x04, 0x00, 0x23]

/-- Modelled from the spec: `ECCCurve::to_string`, used only inside
"unsupported curve" error messages. -/
def ECCCurve.name : ECCCurve → String
  | .Curve25519 => "Curve25519"
  | .Ed25519 => "Ed25519"
  | .P256 => "P256"
  | .P384 => "P384"
  | .P521 => "P521"

/-- Modelled from the spec: the key-format version enumeration
(`types::KeyVersion`). -/
inductive KeyVersion where
  | V2
  | V3
  | V4
  | V5
  deriving DecidableEq

/-- Modelled from the spec: the packet-framing version (`types::Version`,
old-format or new-format packet header), passed through untouched. -/
inductive Version where
  | Old
  | New
  deriving DecidableEq

/-- The algorithm-tagged union of secret parameter byte groups
(`PlainSecretParams` / `PlainSecretParamsRef` from plain_secret.rs; the
borrowed and the owned Rust forms carry the same bytes, so a single Lean
type stands for both). -/
inductive PlainSecretParams where
  | RSA (d p q u : List Nat)
  | DSA (x : List Nat)
  | ECDSA (x : List Nat)
  | ECDH (x : List Nat)
  | Elgamal (x : List Nat)
  | EdDSA (x : List Nat)
  deriving DecidableEq

/-- The public-key algorithm a variant was parsed from / is serialized for
(the `RSA` variant is shared by the `RSA`, `RSAEncrypt` and `RSASign` tags;
this picks the canonical `RSA` tag). -/
def PlainSecretParams.tagOf : PlainSecretParams → PublicKeyAlgorithm
  | .RSA _ _ _ _ => .RSA
  | .DSA _ => .DSA
  | .ECDSA _ => .ECDSA
  | .ECDH _ => .ECDH
  | .Elgamal _ => .Elgamal
  | .EdDSA _ => .EdDSA

/-- `PlainSecretParamsRef::to_writer_raw`: raw-mode serialization, writing
each parameter field as an MPI in the fixed field order. -/
def PlainSecretParams.to_writer_raw : PlainSecretParams → List Nat
  | .RSA d p q u => write_mpi d ++ write_mpi p ++ write_mpi q ++ write_mpi u
  | .DSA x => write_mpi x
  | .ECDSA x => write_mpi x
  | .ECDH x => write_mpi x
  | .Elgamal x => write_mpi x
  | .EdDSA x => write_mpi x

/-- Modelled from the spec: the streaming simple additive checksum
(`checksum::SimpleChecksum`), a `u16` wrapping sum of all hashed bytes. -/
def simple_checksum (xs : List Nat) : Nat :=
  xs.foldl (fun acc b => (acc + b) % 65536) 0

/-- Modelled from the spec: `SimpleChecksum::to_writer`, which emits the
checksum state as a big-endian `u16` (two bytes). -/
def simple_checksum_bytes (c : Nat) : List Nat :=
  [c / 256 % 256, c % 256]

/-- `PlainSecretParamsRef::string_to_key_id`: the legacy checksum-scheme
identifier; always `0` ("simple additive checksum, unencrypted"). -/
def PlainSecretParams.string_to_key_id (_ : PlainSecretParams) : Nat := 0

/-- `Serialize for PlainSecretParamsRef::to_writer` (framed mode): one
checksum-scheme byte, then the raw-mode bytes teed through the simple
checksum, then the two checksum trailer bytes.  The tee writer guarantees
the checksum is computed over exactly the emitted raw bytes, which the
embedding reflects by checksumming the same list it emits. -/
def PlainSecretParams.to_writer (p : PlainSecretParams) : List Nat :=
  p.string_to_key_id :: (p.to_writer_raw ++ simple_checksum_bytes (simple_checksum p.to_writer_raw))

/-- `PlainSecretParamsRef::checksum_simple`: the standalone simple checksum
over the raw-mode bytes. -/
def PlainSecretParams.checksum_simple (p : PlainSecretParams) : List Nat :=
  simple_checksum_bytes (simple_checksum p.to_writer_raw)

/-- `PlainSecretParamsRef::checksum_sha1`: SHA-1 digest over the raw-mode
bytes.  The SHA-1 primitive (`checksum::calculate_sha1`) is external and is
passed in as a function argument. -/
def PlainSecretParams.checksum_sha1 (sha1 : List Nat → List Nat) (p : PlainSecretParams) :
    List Nat :=
  sha1 p.to_writer_raw

/-- `rsa_secret_params`: reads the four RSA secret fields d, p, q, u as MPIs
in that fixed order. -/
def rsa_secret_params (i : List Nat) : ParseResult PlainSecretParams :=
  (mpi i).bind fun i1 d =>
  (mpi i1).bind fun i2 p =>
  (mpi i2).bind fun i3 q =>
  (mpi i3).bind fun i4 u => .ok i4 (.RSA d p q u)

/-- `parse_secret_params`: dispatches on the public-key algorithm tag; the
three RSA tags share one branch, the remaining supported algorithms read a
single MPI; a tag with no branch makes nom's `switch!` fail with an error. -/
def parse_secret_params (i : List Nat) (alg : PublicKeyAlgorithm) :
    ParseResult PlainSecretParams :=
  match alg with
  | .RSA => rsa_secret_params i
  | .RSAEncrypt => rsa_secret_params i
  | .RSASign => rsa_secret_params i
  | .DSA => (mpi i).bind fun r x => .ok r (.DSA x)
  | .Elgamal => (mpi i).bind fun r x => .ok r (.Elgamal x)
  | .ECDH => (mpi i).bind fun r x => .ok r (.ECDH x)
  | .ECDSA => (mpi i).bind fun r x => .ok r (.ECDSA x)
  | .EdDSA => (mpi i).bind fun r x => .ok r (.EdDSA x)
  | .ElgamalSign => .error
  | .DiffieHellman => .error

/-- `PlainSecretParamsRef::from_slice`: runs the parser and discards the
unconsumed remainder of the slice. -/
def PlainSecretParams.from_slice (data : List Nat) (alg : PublicKeyAlgorithm) :
    Except ParseErr PlainSecretParams :=
  match parse_secret_params data alg with
  | .ok _ repr => .ok repr
  | .incomplete => .error .Incomplete
  | .error => .error .Invalid

/-- Modelled from the spec: `BigUint::from_bytes_be`, interpreting a byte
string as a big-endian unsigned integer. -/
def from_bytes_be (xs : List Nat) : Nat :=
  xs.foldl (fun a b => a * 256 + b) 0

/-- The RSA private key object built by `RSAPrivateKey::from_components`
from `(n, e, d, [p, q])`; validation is performed by the external `rsa`
crate and is passed in as a function argument. -/
structure RSAKey where
  n : Nat
  e : Nat
  d : Nat
  primes : List Nat
  deriving DecidableEq

/-- `ECDHSecretKey`: the materialized ECDH secret, carrying the curve OID
and the hash / symmetric-algorithm choices from the public parameters. -/
structure ECDHSecretKey where
  oid : List Nat
  hash : HashAlgorithm
  alg_sym : Nat
  secret : List Nat
  deriving DecidableEq

/-- `EdDSASecretKey`: the materialized EdDSA secret with its curve OID. -/
structure EdDSASecretKey where
  oid : List Nat
  secret : List Nat
  deriving DecidableEq

/-- `SecretKeyRepr`: the validated, algorithm-specific private key
representation. -/
inductive SecretKeyRepr where
  | RSA (key : RSAKey)
  | ECDH (key : ECDHSecretKey)
  | EdDSA (key : EdDSASecretKey)
  deriving DecidableEq

/-- Modelled from the spec: the algorithm-specific public key fields
(`types::PublicParams`, external): modulus and exponent for RSA; curve
identifier plus hash / symmetric-algorithm choices for ECDH; curve
identifier for EdDSA; the remaining variants only feed the
inconsistent-state branches. -/
inductive PublicParams where
  | RSA (n e : List Nat)
  | DSA (p q g y : List Nat)
  | ECDSA (curve : ECCCurve) (p : List Nat)
  | ECDH (curve : ECCCurve) (p : List Nat) (hash : HashAlgorithm) (alg_sym : Nat)
  | Elgamal (p g y : List Nat)
  | EdDSA (curve : ECCCurve) (q : List Nat)
  deriving DecidableEq

/-- Outcome of materialization: a validated key, a returned error, or a
panic (`unreachable!`), kept distinct so that "never panics" is statable. -/
inductive ReprResult where
  | ok (r : SecretKeyRepr)
  | err (e : PgpError)
  | panic (msg : String)
  deriving DecidableEq

/-- The RSA key constructed by `as_repr` from the public `n`, `e` and the
secret `d`, `p`, `q` byte strings. -/
def rsaKeyOf (n e d p q : List Nat) : RSAKey :=
  { n := from_bytes_be n
    e := from_bytes_be e
    d := from_bytes_be d
    primes := [from_bytes_be p, from_bytes_be q] }

/-- `PlainSecretParamsRef::as_repr`: materializes a secret parameter variant
against its public parameters.  The external RSA validation routine
(`RSAPrivateKey::validate`) is passed in as `validate`. -/
def PlainSecretParams.as_repr (validate : RSAKey → Except PgpError Unit)
    (params : PlainSecretParams) (public_params : PublicParams) : ReprResult :=
  match params with
  | .RSA d p q _ =>
    match public_params with
    | .RSA n e =>
      let secret_key := rsaKeyOf n e d p q
      match validate secret_key with
      | .ok _ => .ok (.RSA secret_key)
      | .error err => .err err
    | _ => .panic ("inconsistent key state")
  | .ECDH d =>
    match public_params with
    | .ECDH curve _ hash alg_sym =>
      match curve with
      | .Curve25519 =>
        if d.length = 32 then
          .ok (.ECDH { oid := curve.oid, hash := hash, alg_sym := alg_sym, secret := d })
        else
          .err (.Message ("invalid secret"))
      | _ => .err (.Unsupported ("curve " ++ curve.name ++ " for ECDH"))
    | _ => .panic ("inconsistent key state")
  | .EdDSA d =>
    match public_params with
    | .EdDSA curve _ =>
      match curve with
      | .Ed25519 =>
        if d.length = 32 then
          .ok (.EdDSA { oid := curve.oid, secret := d })
        else
          .err (.Message ("invalid secret"))
      | _ => .err (.Unsupported ("curve " ++ curve.name ++ " for EdDSA"))
    | _ => .panic ("inconsistent key state")
  | .DSA _ => .err (.Unimplemented ("DSA"))
  | .Elgamal _ => .err (.Unimplemented ("Elgamal"))
  | .ECDSA _ => .err (.Unimplemented ("ECDSA"))

/-- `EncryptedSecretParams::new`: ciphertext, IV, symmetric algorithm tag,
string-to-key descriptor (opaque here) and the checksum-scheme selector. -/
structure EncryptedSecretParams where
  data : List Nat
  iv : List Nat
  alg : Nat
  s2k : Nat
  id : Nat
  deriving DecidableEq

/-- `PlainSecretParams::encrypt`: the secret-parameter encryptor.  The
external primitives are passed in as arguments: `sha1` is
`checksum::calculate_sha1`, `cipher key iv plaintext` is
`SymmetricKeyAlgorithm::encrypt_with_iv_regular`, and `key` / `iv` stand
for the string-to-key-derived symmetric key and the freshly generated
random IV.  `alg` and `s2k` are the symmetric-algorithm tag and the opaque
derivation descriptor packaged into the result. -/
def PlainSecretParams.encrypt (sha1 : List Nat → List Nat)
    (cipher : List Nat → List Nat → List Nat → List Nat)
    (key iv : List Nat) (alg s2k : Nat)
    (p : PlainSecretParams) (version : KeyVersion) (id : Nat) :
    Except PgpError EncryptedSecretParams :=
  match version with
  | .V2 => .error (.Unsupported ("Encryption for V2 keys is not available"))
  | .V3 => .error (.Unimplemented ("v3 encryption"))
  | .V4 =>
    let data := p.to_writer_raw
    if id = 254 then
      let plaintext := data ++ p.checksum_sha1 sha1
      .ok { data := cipher key iv plaintext, iv := iv, alg := alg, s2k := s2k, id := id }
    else
      .error (.Unimplemented ("id: " ++ toString id ++ " not implemented yet"))
  | .V5 => .error (.Unimplemented ("v5 encryption"))

/-- `OnePassSignature`: the fixed-layout one-pass-signature packet. -/
structure OnePassSignature where
  packet_version : Version
  version : Nat
  typ : SignatureType
  hash_algorithm : HashAlgorithm
  pub_algorithm : PublicKeyAlgorithm
  key_id : List Nat
  last : Nat
  deriving DecidableEq

/-- nom's streaming `be_u8`: one byte, or incomplete on empty input. -/
def be_u8 (i : List Nat) : ParseResult Nat :=
  match i with
  | [] => .incomplete
  | b :: r => .ok r b

/-- nom's `map_opt`: run a parser, then fail with an error when the mapping
function rejects the parsed value. -/
def map_opt {α β : Type} (p : List Nat → ParseResult α) (f : α → Option β) (i : List Nat) :
    ParseResult β :=
  (p i).bind fun r a =>
    match f a with
    | some b => .ok r b
    | none => .error

/-- nom's streaming `take(8u8)`: exactly eight bytes, or incomplete. -/
def take8 (i : List Nat) : ParseResult (List Nat) :=
  if 8 ≤ i.length then .ok (i.drop 8) (i.take 8) else .incomplete

/-- Modelled from the spec: `KeyId::from_slice`, which accepts exactly
eight bytes and rejects any other length ("a key identifier field is the
wrong length" is malformed content). -/
def KeyId.from_slice (input : List Nat) : Except String (List Nat) :=
  if input.length = 8 then .ok input else .error ("invalid length")

/-- nom's `map_res`: run a parser, then fail with an error when the fallible
conversion rejects the parsed value. -/
def map_res {α β : Type} (p : List Nat → ParseResult α) (f : α → Except String β)
    (i : List Nat) : ParseResult β :=
  (p i).bind fun r a =>
    match f a with
    | .ok b => .ok r b
    | .error _ => .error

/-- `one_pass_signature::parse`: version byte, signature type, hash
algorithm, public-key algorithm, 8-byte key id, last flag, in that order. -/
def OnePassSignature.parse (i : List Nat) (packet_version : Version) :
    ParseResult OnePassSignature :=
  (be_u8 i).bind fun i version =>
  (map_opt be_u8 SignatureType.from_u8 i).bind fun i typ =>
  (map_opt be_u8 HashAlgorithm.from_u8 i).bind fun i hash =>
  (map_opt be_u8 PublicKeyAlgorithm.from_u8 i).bind fun i pub_alg =>
  (map_res take8 KeyId.from_slice i).bind fun i key_id =>
  (be_u8 i).bind fun i last =>
  .ok i
    { packet_version := packet_version
      version := version
      typ := typ
      hash_algorithm := hash
      pub_algorithm := pub_alg
      key_id := key_id
      last := last }

/-- `OnePassSignature::from_slice`: runs the parser and discards the
unconsumed remainder of the slice. -/
def OnePassSignature.from_slice (packet_version : Version) (input : List Nat) :
    Except ParseErr OnePassSignature :=
  match OnePassSignature.parse input packet_version with
  | .ok _ pk => .ok pk
  | .incomplete => .error .Incomplete
  | .error => .error .Invalid

/-- `Serialize for OnePassSignature::to_writer`: the six fields back in the
same fixed order, with no length prefix and no padding. -/
def OnePassSignature.to_writer (s : OnePassSignature) : List Nat :=
  [s.version, s.typ.toU8, s.hash_algorithm.toU8, s.pub_algorithm.toU8] ++ s.key_id ++ [s.last]

/-- A field byte string in minimal MPI form: actual byte values, no leading
zero octet, and bit length below 2^16 so that it fits the two-byte
bit-length prefix. -/
def isMpiNormal (xs : List Nat) : Bool :=
  xs.all (fun b => b < 256) &&
    (match xs with
     | [] => true
     | h :: _ => h != 0) &&
    bit_size xs < 65536

/-- All parameter fields of a variant are in minimal MPI form. -/
def PlainSecretParams.fieldsNormal : PlainSecretParams → Bool
  | .RSA d p q u => isMpiNormal d && isMpiNormal p && isMpiNormal q && isMpiNormal u
  | .DSA x => isMpiNormal x
  | .ECDSA x => isMpiNormal x
  | .ECDH x => isMpiNormal x
  | .Elgamal x => isMpiNormal x
  | .EdDSA x => isMpiNormal x

/-- The minimal form of a field: its leading zero octets stripped (this is what
the MPI writer actually emits and what the reader hands back). -/
def stripField (xs : List Nat) : List Nat := xs.dropWhile (· == 0)

/-- The variant with every parameter field replaced by its minimal form. -/
def PlainSecretParams.stripFields : PlainSecretParams → PlainSecretParams
  | .RSA d p q u => .RSA (stripField d) (stripField p) (stripField q) (stripField u)
  | .DSA x => .DSA (stripField x)
  | .ECDSA x => .ECDSA (stripField x)
  | .ECDH x => .ECDH (stripField x)
  | .Elgamal x => .Elgamal (stripField x)
  | .EdDSA x => .EdDSA (stripField x)

/-- The algorithm tags for which `parse_secret_params` has a branch. -/
def PublicKeyAlgorithm.hasSecretParams : PublicKeyAlgorithm → Bool
  | .RSA => true
  | .RSAEncrypt => true
  | .RSASign => true
  | .DSA => true
  | .Elgamal => true
  | .ECDH => true
  | .ECDSA => true
  | .EdDSA => true
  | .ElgamalSign => false
  | .DiffieHellman => false

/-- Streaming-soundness contract of a parser `P`: whenever `P` succeeds on
`i` leaving `r`, it consumed a determined prefix of `i`; on any strict
prefix of the consumed bytes it reports incomplete input; and appending
extra bytes leaves the parsed value unchanged. -/
def Consumes {α : Type} (P : List Nat → ParseResult α) : Prop :=
  ∀ i r v, P i = .ok r v → ∃ c,
    c + r.length = i.length ∧
    i.take c ++ r = i ∧
    (∀ t, P (i.take c ++ t) = .ok t v) ∧
    (∀ n, n < c → P (i.take n) = .incomplete) ∧
    (∀ s, P (i ++ s) = .ok (r ++ s) v)

@[simp] theorem ParseResult.bind_ok {α β : Type} (r : List Nat) (v : α)
    (f : List Nat → α → ParseResult β) : (ParseResult.ok r v).bind f = f r v := rfl

@[simp] theorem ParseResult.bind_incomplete {α β : Type}
    (f : List Nat → α → ParseResult β) : (ParseResult.incomplete).bind f = .incomplete := rfl

@[simp] theorem ParseResult.bind_error {α β : Type}
    (f : List Nat → α → ParseResult β) : (ParseResult.error).bind f = .error := rfl

theorem consumes_pure {α : Type} (a : α) : Consumes (fun i => ParseResult.ok i a) := by
  intro i r v h
  injection h with h1 h2
  subst h1; subst h2
  exact ⟨0, by simp, by simp, fun t => by simp, fun n hn => by omega, fun s => by simp⟩

theorem consumes_bind {α β : Type} {P : List Nat → ParseResult α}
    {F : α → List Nat → ParseResult β}
    (hP : Consumes P) (hF : ∀ a, Consumes (F a)) :
    Consumes (fun i => (P i).bind fun r v => F v r) := by
  intro i r v h
  simp only at h
  cases hPi : P i with
  | ok r1 v1 =>
    rw [hPi] at h
    simp only [ParseResult.bind_ok] at h
    obtain ⟨c1, hc1len, hc1split, hc1det, hc1inc, hc1app⟩ := hP i r1 v1 hPi
    obtain ⟨c2, hc2len, hc2split, hc2det, hc2inc, hc2app⟩ := hF v1 r1 r v h
    have hta : (i.take c1).length = c1 := by
      rw [List.length_take]; omega
    refine ⟨c1 + c2, by omega, ?_, ?_, ?_, ?_⟩
    · have : i.take (c1 + c2) = i.take c1 ++ r1.take c2 := by
        conv_lhs => rw [← hc1split]
        rw [List.take_append_eq_append_take, hta,
          List.take_of_length_le (l := i.take c1) (by omega), Nat.add_sub_cancel_left]
      rw [this, List.append_assoc, hc2split, hc1split]
    · intro t
      have : i.take (c1 + c2) ++ t = i.take c1 ++ (r1.take c2 ++ t) := by
        conv_lhs => rw [← hc1split]
        rw [List.take_append_eq_append_take, hta,
          List.take_of_length_le (l := i.take c1) (by omega), Nat.add_sub_cancel_left,
          List.append_assoc]
      rw [this]
      simp only
      rw [hc1det, ParseResult.bind_ok]
      exact hc2det t
    · intro n hn
      by_cases hcase : n < c1
      · simp only
        rw [hc1inc n hcase, ParseResult.bind_incomplete]
      · have : i.take n = i.take c1 ++ r1.take (n - c1) := by
          conv_lhs => rw [← hc1split]
          rw [List.take_append_eq_append_take, hta,
            List.take_of_length_le (l := i.take c1) (by omega)]
        rw [this]
        simp only
        rw [hc1det, ParseResult.bind_ok]
        exact hc2inc (n - c1) (by omega)
    · intro s
      simp only
      rw [hc1app s, ParseResult.bind_ok, hc2app s]
  | incomplete => rw [hPi] at h; simp at h
  | error => rw [hPi] at h; simp at h

theorem consumes_mpi : Consumes mpi := by
  intro i r v h
  match i with
  | [] => exact absurd h (by simp [mpi])
  | [b0] => exact absurd h (by simp [mpi])
  | b0 :: b1 :: rest =>
    simp only [mpi] at h
    by_cases hle : (b0 * 256 + b1 + 7) / 8 ≤ rest.length
    · rw [if_pos hle] at h
      injection h with h1 h2
      subst h1; subst h2
      set n := (b0 * 256 + b1 + 7) / 8 with hn
      have htaken : (rest.take n).length = n := by rw [List.length_take]; omega
      refine ⟨n + 2, ?_, ?_, ?_, ?_, ?_⟩
      · simp [List.length_drop]; omega
      · show (b0 :: b1 :: rest).take (n + 2) ++ rest.drop n = b0 :: b1 :: rest
        simp only [List.take_succ_cons, List.cons_append, List.take_append_drop]
      · intro t
        show mpi (((b0 :: b1 :: rest).take (n + 2)) ++ t) = .ok t (rest.take n)
        simp only [List.take_succ_cons, List.cons_append, mpi, ← hn]
        rw [if_pos (by rw [List.length_append, htaken]; omega)]
        rw [List.drop_left' htaken, List.take_left' htaken]
      · intro m hm
        match m with
        | 0 => simp [mpi]
        | 1 => simp [mpi]
        | k + 2 =>
          show mpi ((b0 :: b1 :: rest).take (k + 2)) = .incomplete
          simp only [List.take_succ_cons, mpi, ← hn]
          rw [if_neg (by rw [List.length_take]; omega)]
      · intro s
        show mpi ((b0 :: b1 :: rest) ++ s) = .ok (rest.drop n ++ s) (rest.take n)
        simp only [List.cons_append, mpi, ← hn]
        rw [if_pos (by rw [List.length_append]; omega)]
        rw [List.drop_append_of_le_length hle, List.take_append_of_le_length hle]
    · rw [if_neg hle] at h; exact absurd h (by simp)

theorem consumes_be_u8 : Consumes be_u8 := by
  intro i r v h
  match i with
  | [] => exact absurd h (by simp [be_u8])
  | b :: t =>
    simp only [be_u8] at h
    cases h
    refine ⟨1, by simp [Nat.add_comm], by simp, fun t' => by simp [be_u8], ?_,
      fun s => by simp [be_u8]⟩
    intro n hn
    match n, hn with
    | 0, _ => simp [be_u8]

theorem consumes_take8 : Consumes take8 := by
  intro i r v h
  simp only [take8] at h
  by_cases hle : 8 ≤ i.length
  · rw [if_pos hle] at h
    injection h with h1 h2
    subst h1; subst h2
    have htaken : (i.take 8).length = 8 := by rw [List.length_take]; omega
    refine ⟨8, ?_, ?_, ?_, ?_, ?_⟩
    · simp [List.length_drop]; omega
    · exact List.take_append_drop 8 i
    · intro t
      rw [take8, if_pos (by rw [List.length_append, htaken]; omega)]
      rw [List.drop_left' htaken, List.take_left' htaken]
    · intro n hn
      rw [take8, if_neg (by rw [List.length_take]; omega)]
    · intro s
      rw [take8, if_pos (by rw [List.length_append]; omega)]
      rw [List.drop_append_of_le_length hle, List.take_append_of_le_length hle]
  · rw [if_neg hle] at h; exact absurd h (by simp)

theorem consumes_map_opt {α β : Type} {p : List Nat → ParseResult α}
    (hp : Consumes p) (f : α → Option β) : Consumes (map_opt p f) := by
  intro i r v h
  simp only [map_opt] at h
  cases hpi : p i with
  | ok r1 a =>
    rw [hpi, ParseResult.bind_ok] at h
    cases hfa : f a with
    | some b =>
      rw [hfa] at h
      cases h
      obtain ⟨c, hclen, hcsplit, hcdet, hcinc, hcapp⟩ := hp i r a hpi
      refine ⟨c, hclen, hcsplit, ?_, ?_, ?_⟩
      · intro t
        rw [map_opt, hcdet t, ParseResult.bind_ok, hfa]
      · intro n hn
        rw [map_opt, hcinc n hn, ParseResult.bind_incomplete]
      · intro s
        rw [map_opt, hcapp s, ParseResult.bind_ok, hfa]
    | none => rw [hfa] at h; exact absurd h (by simp)
  | incomplete => rw [hpi] at h; simp at h
  | error => rw [hpi] at h; simp at h

theorem consumes_map_res {α β : Type} {p : List Nat → ParseResult α}
    (hp : Consumes p) (f : α → Except String β) : Consumes (map_res p f) := by
  intro i r v h
  simp only [map_res] at h
  cases hpi : p i with
  | ok r1 a =>
    rw [hpi, ParseResult.bind_ok] at h
    cases hfa : f a with
    | ok b =>
      rw [hfa] at h
      cases h
      obtain ⟨c, hclen, hcsplit, hcdet, hcinc, hcapp⟩ := hp i r a hpi
      refine ⟨c, hclen, hcsplit, ?_, ?_, ?_⟩
      · intro t
        rw [map_res, hcdet t, ParseResult.bind_ok, hfa]
      · intro n hn
        rw [map_res, hcinc n hn, ParseResult.bind_incomplete]
      · intro s
        rw [map_res, hcapp s, ParseResult.bind_ok, hfa]
    | error e => rw [hfa] at h; exact absurd h (by simp)
  | incomplete => rw [hpi] at h; simp at h
  | error => rw [hpi] at h; simp at h

theorem consumes_rsa : Consumes rsa_secret_params := by
  have : rsa_secret_params = fun i =>
      (mpi i).bind fun i1 d =>
      (mpi i1).bind fun i2 p =>
      (mpi i2).bind fun i3 q =>
      (mpi i3).bind fun i4 u => .ok i4 (.RSA d p q u) := rfl
  rw [this]
  exact consumes_bind consumes_mpi fun d =>
    consumes_bind consumes_mpi fun p =>
    consumes_bind consumes_mpi fun q =>
    consumes_bind consumes_mpi fun u =>
    consumes_pure _

theorem consumes_error {α : Type} : Consumes (fun _ : List Nat => (ParseResult.error : ParseResult α)) := by
  intro i r v h
  exact absurd h (by simp)

theorem consumes_parse_secret_params (alg : PublicKeyAlgorithm) :
    Consumes (fun i => parse_secret_params i alg) := by
  cases alg
  case RSA => exact consumes_rsa
  case RSAEncrypt => exact consumes_rsa
  case RSASign => exact consumes_rsa
  case DSA => exact consumes_bind consumes_mpi fun x => consumes_pure _
  case Elgamal => exact consumes_bind consumes_mpi fun x => consumes_pure _
  case ECDH => exact consumes_bind consumes_mpi fun x => consumes_pure _
  case ECDSA => exact consumes_bind consumes_mpi fun x => consumes_pure _
  case EdDSA => exact consumes_bind consumes_mpi fun x => consumes_pure _
  case ElgamalSign => exact consumes_error
  case DiffieHellman => exact consumes_error

theorem consumes_ops_parse (pv : Version) :
    Consumes (fun i => OnePassSignature.parse i pv) := by
  have : (fun i => OnePassSignature.parse i pv) = fun i =>
      (be_u8 i).bind fun i version =>
      (map_opt be_u8 SignatureType.from_u8 i).bind fun i typ =>
      (map_opt be_u8 HashAlgorithm.from_u8 i).bind fun i hash =>
      (map_opt be_u8 PublicKeyAlgorithm.from_u8 i).bind fun i pub_alg =>
      (map_res take8 KeyId.from_slice i).bind fun i key_id =>
      (be_u8 i).bind fun i last =>
      .ok i
        { packet_version := pv
          version := version
          typ := typ
          hash_algorithm := hash
          pub_algorithm := pub_alg
          key_id := key_id
          last := last } := rfl
  rw [this]
  exact consumes_bind consumes_be_u8 fun version =>
    consumes_bind (consumes_map_opt consumes_be_u8 _) fun typ =>
    consumes_bind (consumes_map_opt consumes_be_u8 _) fun hash =>
    consumes_bind (consumes_map_opt consumes_be_u8 _) fun pub_alg =>
    consumes_bind (consumes_map_res consumes_take8 _) fun key_id =>
    consumes_bind consumes_be_u8 fun last =>
    consumes_pure _

theorem simple_checksum_foldl (a : Nat) (xs : List Nat) (ha : a < 65536) :
    xs.foldl (fun acc b => (acc + b) % 65536) a = (a + xs.sum) % 65536 := by
  induction xs generalizing a with
  | nil => simp [Nat.mod_eq_of_lt ha]
  | cons x t ih =>
    simp only [List.foldl_cons, List.sum_cons]
    rw [ih _ (Nat.mod_lt _ (by omega)), Nat.mod_add_mod]
    congr 1
    omega

/-- The streaming simple checksum equals the sum of the hashed bytes mod 2^16. -/
theorem simple_checksum_eq_sum (xs : List Nat) : simple_checksum xs = xs.sum % 65536 := by
  simpa using simple_checksum_foldl 0 xs (by omega)

theorem simple_checksum_lt (xs : List Nat) : simple_checksum xs < 65536 := by
  rw [simple_checksum_eq_sum]
  exact Nat.mod_lt _ (by omega)

theorem byteBits_bounds (b : Nat) (h0 : b ≠ 0) (_h256 : b < 256) :
    1 ≤ byteBits b ∧ byteBits b ≤ 8 := by
  unfold byteBits
  split_ifs <;> omega

/-- Reading back an MPI written from any field returns the minimal form of
the field (leading zero octets stripped) and consumes exactly the written
bytes, whenever that minimal form fits the 2-byte bit-length prefix. -/
theorem mpi_write_read_strip (xs : List Nat)
    (h : isMpiNormal (stripField xs) = true) (s : List Nat) :
    mpi (write_mpi xs ++ s) = .ok s (stripField xs) := by
  have hw : write_mpi xs ++ s
      = (bit_size (stripField xs) / 256 % 256) :: (bit_size (stripField xs) % 256)
        :: (stripField xs ++ s) := rfl
  rw [hw]
  revert h
  generalize stripField xs = v
  intro h
  match v with
  | [] => simp [bit_size, mpi]
  | h0 :: t =>
    simp only [isMpiNormal, Bool.and_eq_true, List.all_eq_true, decide_eq_true_eq,
      bne_iff_ne, ne_eq] at h
    obtain ⟨⟨hall, hne⟩, hszlt⟩ := h
    have h256 : h0 < 256 := hall h0 (by simp)
    have hbb := byteBits_bounds h0 hne h256
    have hszbits : bit_size (h0 :: t) = byteBits h0 + 8 * t.length := rfl
    have hdiv : bit_size (h0 :: t) / 256 % 256 = bit_size (h0 :: t) / 256 :=
      Nat.mod_eq_of_lt ((Nat.div_lt_iff_lt_mul (by omega)).mpr (by omega))
    have hrecon : bit_size (h0 :: t) / 256 * 256 + bit_size (h0 :: t) % 256
        = bit_size (h0 :: t) := by
      rw [Nat.mul_comm]
      exact Nat.div_add_mod _ 256
    have hneed : (bit_size (h0 :: t) + 7) / 8 = t.length + 1 := by
      rw [hszbits]
      have harr : byteBits h0 + 8 * t.length + 7 = (byteBits h0 + 7) + 8 * t.length := by
        omega
      rw [harr, Nat.add_mul_div_left _ _ (by omega : (0:Nat) < 8)]
      have : (byteBits h0 + 7) / 8 = 1 := Nat.div_eq_of_lt_le (by omega) (by omega)
      omega
    have hlist : (h0 :: t).length = t.length + 1 := by simp
    simp only [mpi, hdiv, hrecon, hneed]
    rw [if_pos (by rw [List.length_append, hlist]; omega)]
    rw [List.drop_left' hlist, List.take_left' hlist]

/-- A field already in minimal form is unchanged by stripping. -/
theorem stripField_of_normal (xs : List Nat) (h : isMpiNormal xs = true) :
    stripField xs = xs := by
  cases xs with
  | nil => rfl
  | cons h0 t =>
    simp only [isMpiNormal, Bool.and_eq_true, List.all_eq_true, decide_eq_true_eq,
      bne_iff_ne, ne_eq] at h
    unfold stripField
    rw [List.dropWhile_cons_of_neg]
    simp [h.1.2]

/-- Reading back an MPI written from a field in minimal form returns exactly
that field and consumes exactly the written bytes. -/
theorem mpi_write_read (xs : List Nat) (h : isMpiNormal xs = true) (s : List Nat) :
    mpi (write_mpi xs ++ s) = .ok s xs := by
  have hd := stripField_of_normal xs h
  have hx := mpi_write_read_strip xs (by rw [hd]; exact h) s
  rwa [hd] at hx

/-- A variant whose fields are all in minimal form is unchanged by
stripping. -/
theorem stripFields_of_normal (p : PlainSecretParams) (h : p.fieldsNormal = true) :
    p.stripFields = p := by
  cases p with
  | RSA d pr q u =>
    simp only [PlainSecretParams.fieldsNormal, Bool.and_eq_true] at h
    obtain ⟨⟨⟨hd, hp⟩, hq⟩, hu⟩ := h
    simp only [PlainSecretParams.stripFields, stripField_of_normal _ hd,
      stripField_of_normal _ hp, stripField_of_normal _ hq, stripField_of_normal _ hu]
  | DSA x =>
    simp only [PlainSecretParams.fieldsNormal] at h
    simp only [PlainSecretParams.stripFields, stripField_of_normal _ h]
  | ECDSA x =>
    simp only [PlainSecretParams.fieldsNormal] at h
    simp only [PlainSecretParams.stripFields, stripField_of_normal _ h]
  | ECDH x =>
    simp only [PlainSecretParams.fieldsNormal] at h
    simp only [PlainSecretParams.stripFields, stripField_of_normal _ h]
  | Elgamal x =>
    simp only [PlainSecretParams.fieldsNormal] at h
    simp only [PlainSecretParams.stripFields, stripField_of_normal _ h]
  | EdDSA x =>
    simp only [PlainSecretParams.fieldsNormal] at h
    simp only [PlainSecretParams.stripFields, stripField_of_normal _ h]

theorem mpi_ne_error (i : List Nat) : mpi i ≠ .error := by
  match i with
  | [] => simp [mpi]
  | [b] => simp [mpi]
  | a :: b :: r =>
    simp only [mpi]
    split <;> simp

theorem bind_ne_error {α β : Type} (p : ParseResult α) (f : List Nat → α → ParseResult β)
    (hp : p ≠ .error) (hf : ∀ r v, f r v ≠ .error) : p.bind f ≠ .error := by
  cases p with
  | ok r v => exact hf r v
  | incomplete => simp [ParseResult.bind]
  | error => exact absurd rfl hp

theorem rsa_ne_error (i : List Nat) : rsa_secret_params i ≠ .error := by
  unfold rsa_secret_params
  apply bind_ne_error _ _ (mpi_ne_error i)
  intro i1 d
  apply bind_ne_error _ _ (mpi_ne_error i1)
  intro i2 p
  apply bind_ne_error _ _ (mpi_ne_error i2)
  intro i3 q
  apply bind_ne_error _ _ (mpi_ne_error i3)
  intro i4 u
  simp

theorem parse_secret_params_ne_error (i : List Nat) (alg : PublicKeyAlgorithm)
    (h : alg.hasSecretParams = true) : parse_secret_params i alg ≠ .error := by
  cases alg <;>
    simp only [PublicKeyAlgorithm.hasSecretParams] at h <;>
    first
    | exact rsa_ne_error i
    | (apply bind_ne_error _ _ (mpi_ne_error i); intro r x; simp)
    | exact absurd h (by simp)

theorem sigType_toU8_from_u8 {b : Nat} {t : SignatureType}
    (h : SignatureType.from_u8 b = some t) : t.toU8 = b := by
  have hfind := List.find?_some h
  simpa using hfind

theorem hashAlg_toU8_from_u8 {b : Nat} {t : HashAlgorithm}
    (h : HashAlgorithm.from_u8 b = some t) : t.toU8 = b := by
  have hfind := List.find?_some h
  simpa using hfind

theorem pubAlg_toU8_from_u8 {b : Nat} {t : PublicKeyAlgorithm}
    (h : PublicKeyAlgorithm.from_u8 b = some t) : t.toU8 = b := by
  have hfind := List.find?_some h
  simpa using hfind

theorem simple_checksum_bytes_eq (c : Nat) (hc : c < 65536) :
    simple_checksum_bytes c = [c / 256, c % 256] := by
  unfold simple_checksum_bytes
  rw [Nat.mod_eq_of_lt ((Nat.div_lt_iff_lt_mul (by omega)).mpr (by omega))]

/-- Claim C1: for every secret parameter variant, framed-mode serialization
emits exactly one checksum-scheme byte equal to 0, then the raw-mode
MPI-encoded fields, then a 2-byte big-endian checksum equal to the sum of
exactly the raw-mode bytes modulo 65536; splitting off the last two bytes
of the framed output and recomputing the simple checksum over the middle
portion reproduces the trailer. -/
theorem C1_framed_serialization (p : PlainSecretParams) (mid ck : List Nat)
    (hsplit : p.to_writer = 0 :: (mid ++ ck)) (hck : ck.length = 2) :
    ck = simple_checksum_bytes (simple_checksum mid) ∧
    simple_checksum mid = mid.sum % 65536 ∧
    p.to_writer = 0 :: (p.to_writer_raw ++
      [p.to_writer_raw.sum % 65536 / 256, p.to_writer_raw.sum % 65536 % 256]) := by
  have hw : p.to_writer = 0 :: (p.to_writer_raw ++
      simple_checksum_bytes (simple_checksum p.to_writer_raw)) := rfl
  have heq : p.to_writer_raw ++ simple_checksum_bytes (simple_checksum p.to_writer_raw)
      = mid ++ ck := by
    have h2 : (0 : Nat) :: (p.to_writer_raw ++
        simple_checksum_bytes (simple_checksum p.to_writer_raw)) = 0 :: (mid ++ ck) := by
      rw [← hw, hsplit]
    injection h2
  obtain ⟨hmid, hckeq⟩ := List.append_inj' heq (by rw [hck]; rfl)
  refine ⟨by rw [← hckeq, hmid], simple_checksum_eq_sum mid, ?_⟩
  rw [hw, simple_checksum_bytes_eq _ (simple_checksum_lt _), simple_checksum_eq_sum]

/-- Witness for C1 at the concrete variant DSA [1, 2]. -/
theorem C1_framed_serialization_witness :
    ([0, 12] : List Nat) = simple_checksum_bytes (simple_checksum [0, 9, 1, 2]) ∧
    simple_checksum [0, 9, 1, 2] = ([0, 9, 1, 2] : List Nat).sum % 65536 ∧
    (PlainSecretParams.DSA [1, 2]).to_writer
      = 0 :: ((PlainSecretParams.DSA [1, 2]).to_writer_raw ++
        [(PlainSecretParams.DSA [1, 2]).to_writer_raw.sum % 65536 / 256,
         (PlainSecretParams.DSA [1, 2]).to_writer_raw.sum % 65536 % 256]) :=
  C1_framed_serialization (.DSA [1, 2]) [0, 9, 1, 2] [0, 12] (by decide) (by decide)

/-- Claim C3: `encrypt` fails with an unsupported error for V2 keys, a
not-implemented error for V3 and V5 keys and for any V4 checksum-scheme
selector other than 254; every failure is returned without invoking the
block cipher (the result does not depend on `cipher`, so no ciphertext is
produced); in the V4 / selector-254 case the encrypted plaintext is the
raw-mode bytes followed by the SHA-1 digest of the raw-mode bytes. -/
theorem C3_encrypt_policy :
    (∀ (sha1 : List Nat → List Nat) (cipher : List Nat → List Nat → List Nat → List Nat)
        (key iv : List Nat) (alg s2k : Nat) (p : PlainSecretParams) (id : Nat),
      PlainSecretParams.encrypt sha1 cipher key iv alg s2k p .V2 id
        = .error (.Unsupported ("Encryption for V2 keys is not available"))) ∧
    (∀ (sha1 : List Nat → List Nat) (cipher : List Nat → List Nat → List Nat → List Nat)
        (key iv : List Nat) (alg s2k : Nat) (p : PlainSecretParams) (id : Nat),
      PlainSecretParams.encrypt sha1 cipher key iv alg s2k p .V3 id
        = .error (.Unimplemented ("v3 encryption"))) ∧
    (∀ (sha1 : List Nat → List Nat) (cipher : List Nat → List Nat → List Nat → List Nat)
        (key iv : List Nat) (alg s2k : Nat) (p : PlainSecretParams) (id : Nat),
      PlainSecretParams.encrypt sha1 cipher key iv alg s2k p .V5 id
        = .error (.Unimplemented ("v5 encryption"))) ∧
    (∀ (sha1 : List Nat → List Nat) (cipher : List Nat → List Nat → List Nat → List Nat)
        (key iv : List Nat) (alg s2k : Nat) (p : PlainSecretParams) (id : Nat),
      id ≠ 254 →
      PlainSecretParams.encrypt sha1 cipher key iv alg s2k p .V4 id
        = .error (.Unimplemented ("id: " ++ toString id ++ " not implemented yet"))) ∧
    (∀ (sha1 : List Nat → List Nat) (cipher : List Nat → List Nat → List Nat → List Nat)
        (key iv : List Nat) (alg s2k : Nat) (p : PlainSecretParams),
      PlainSecretParams.encrypt sha1 cipher key iv alg s2k p .V4 254
        = .ok { data := cipher key iv (p.to_writer_raw ++ sha1 p.to_writer_raw),
                iv := iv, alg := alg, s2k := s2k, id := 254 }) := by
  refine ⟨fun _ _ _ _ _ _ _ _ => rfl, fun _ _ _ _ _ _ _ _ => rfl,
    fun _ _ _ _ _ _ _ _ => rfl, ?_, ?_⟩
  · intro sha1 cipher key iv alg s2k p id hid
    simp only [PlainSecretParams.encrypt]
    rw [if_neg hid]
  · intro sha1 cipher key iv alg s2k p
    rfl

/-- Witness for C3 at the concrete selector 0 under V4. -/
theorem C3_encrypt_policy_witness :
    (0 : Nat) ≠ 254 ∧
    PlainSecretParams.encrypt (fun _ => []) (fun _ _ d => d) [] [] 0 0 (.DSA [1]) .V4 0
      = .error (.Unimplemented ("id: " ++ toString (0 : Nat) ++ " not implemented yet")) :=
  ⟨by decide, C3_encrypt_policy.2.2.2.1 (fun _ => []) (fun _ _ d => d) [] [] 0 0
    (.DSA [1]) 0 (by decide)⟩

/-- Claim C4: RSA materialization builds the private key from
(n, e, d, [p, q]), runs the external validation check before returning,
never returns an RSA key that did not pass validation, and propagates any
validation failure to the caller. -/
theorem C4_rsa_materialization (validate : RSAKey → Except PgpError Unit)
    (d p q u n e : List Nat) :
    (∀ r, PlainSecretParams.as_repr validate (.RSA d p q u) (.RSA n e) = .ok r →
      r = .RSA (rsaKeyOf n e d p q) ∧ validate (rsaKeyOf n e d p q) = .ok ()) ∧
    (∀ err, validate (rsaKeyOf n e d p q) = .error err →
      PlainSecretParams.as_repr validate (.RSA d p q u) (.RSA n e) = .err err) := by
  constructor
  · intro r hr
    simp only [PlainSecretParams.as_repr] at hr
    cases hv : validate (rsaKeyOf n e d p q) with
    | ok u =>
      rw [hv] at hr
      simp only at hr
      cases hr
      exact ⟨rfl, rfl⟩
    | error err =>
      rw [hv] at hr
      exact absurd hr (by simp)
  · intro err hv
    simp only [PlainSecretParams.as_repr]
    rw [hv]

/-- Witness for C4 at concrete parameters and a concrete validator that
accepts exactly keys whose private exponent is 2. -/
theorem C4_rsa_materialization_witness :
    (SecretKeyRepr.RSA (rsaKeyOf [15] [1] [2] [3] [5])
        = .RSA (rsaKeyOf [15] [1] [2] [3] [5]) ∧
      (fun k : RSAKey => if k.d = 2 then (.ok () : Except PgpError Unit)
          else .error (.Message ("validation failed"))) (rsaKeyOf [15] [1] [2] [3] [5])
        = .ok ()) ∧
    PlainSecretParams.as_repr
      (fun k : RSAKey => if k.d = 2 then (.ok () : Except PgpError Unit)
          else .error (.Message ("validation failed")))
      (.RSA [0] [3] [5] [7]) (.RSA [15] [1]) = .err (.Message ("validation failed")) :=
  ⟨(C4_rsa_materialization
      (fun k : RSAKey => if k.d = 2 then (.ok () : Except PgpError Unit)
        else .error (.Message ("validation failed"))) [2] [3] [5] [7] [15] [1]).1
      (.RSA (rsaKeyOf [15] [1] [2] [3] [5])) rfl,
   (C4_rsa_materialization
      (fun k : RSAKey => if k.d = 2 then (.ok () : Except PgpError Unit)
        else .error (.Message ("validation failed"))) [0] [3] [5] [7] [15] [1]).2
      (.Message ("validation failed")) rfl⟩

/-- Claim C5: for ECDH over Curve25519 and EdDSA over Ed25519,
materialization succeeds exactly when the private scalar is 32 bytes long,
in which case the result carries the curve's object identifier (and, for
ECDH, the hash and symmetric-algorithm parameters from the public
parameters); any other scalar length fails with the invalid-secret error,
and any other curve fails with an unsupported error. -/
theorem C5_curve_materialization (validate : RSAKey → Except PgpError Unit)
    (x pbytes qbytes : List Nat) (hash : HashAlgorithm) (alg_sym : Nat) (c : ECCCurve) :
    (PlainSecretParams.as_repr validate (.ECDH x) (.ECDH .Curve25519 pbytes hash alg_sym)
        = .ok (.ECDH { oid := ECCCurve.Curve25519.oid, hash := hash,
                       alg_sym := alg_sym, secret := x })
      ↔ x.length = 32) ∧
    (x.length ≠ 32 →
      PlainSecretParams.as_repr validate (.ECDH x) (.ECDH .Curve25519 pbytes hash alg_sym)
        = .err (.Message ("invalid secret"))) ∧
    (c ≠ .Curve25519 →
      PlainSecretParams.as_repr validate (.ECDH x) (.ECDH c pbytes hash alg_sym)
        = .err (.Unsupported ("curve " ++ c.name ++ " for ECDH"))) ∧
    (PlainSecretParams.as_repr validate (.EdDSA x) (.EdDSA .Ed25519 qbytes)
        = .ok (.EdDSA { oid := ECCCurve.Ed25519.oid, secret := x })
      ↔ x.length = 32) ∧
    (x.length ≠ 32 →
      PlainSecretParams.as_repr validate (.EdDSA x) (.EdDSA .Ed25519 qbytes)
        = .err (.Message ("invalid secret"))) ∧
    (c ≠ .Ed25519 →
      PlainSecretParams.as_repr validate (.EdDSA x) (.EdDSA c qbytes)
        = .err (.Unsupported ("curve " ++ c.name ++ " for EdDSA"))) := by
  refine ⟨?_, ?_, ?_, ?_, ?_, ?_⟩
  · constructor
    · intro hok
      by_contra hx
      simp only [PlainSecretParams.as_repr] at hok
      rw [if_neg hx] at hok
      exact absurd hok (by simp)
    · intro hx
      simp only [PlainSecretParams.as_repr]
      rw [if_pos hx]
  · intro hx
    simp only [PlainSecretParams.as_repr]
    rw [if_neg hx]
  · intro hc
    cases c
    case Curve25519 => exact absurd rfl hc
    all_goals rfl
  · constructor
    · intro hok
      by_contra hx
      simp only [PlainSecretParams.as_repr] at hok
      rw [if_neg hx] at hok
      exact absurd hok (by simp)
    · intro hx
      simp only [PlainSecretParams.as_repr]
      rw [if_pos hx]
  · intro hx
    simp only [PlainSecretParams.as_repr]
    rw [if_neg hx]
  · intro hc
    cases c
    case Ed25519 => exact absurd rfl hc
    all_goals rfl

/-- Witness for C5 at a 32-byte scalar, a 1-byte scalar, and the P256
curve. -/
theorem C5_curve_materialization_witness :
    PlainSecretParams.as_repr (fun _ => .ok ()) (.ECDH (List.replicate 32 7))
        (.ECDH .Curve25519 [] .SHA256 9)
      = .ok (.ECDH { oid := ECCCurve.Curve25519.oid, hash := .SHA256,
                     alg_sym := 9, secret := List.replicate 32 7 }) ∧
    PlainSecretParams.as_repr (fun _ => .ok ()) (.ECDH [1])
        (.ECDH .Curve25519 [] .SHA256 9) = .err (.Message ("invalid secret")) ∧
    PlainSecretParams.as_repr (fun _ => .ok ()) (.ECDH [1]) (.ECDH .P256 [] .SHA256 9)
      = .err (.Unsupported ("curve " ++ ECCCurve.P256.name ++ " for ECDH")) ∧
    PlainSecretParams.as_repr (fun _ => .ok ()) (.EdDSA (List.replicate 32 7))
        (.EdDSA .Ed25519 [])
      = .ok (.EdDSA { oid := ECCCurve.Ed25519.oid, secret := List.replicate 32 7 }) ∧
    PlainSecretParams.as_repr (fun _ => .ok ()) (.EdDSA [1]) (.EdDSA .Ed25519 [])
      = .err (.Message ("invalid secret")) ∧
    PlainSecretParams.as_repr (fun _ => .ok ()) (.EdDSA [1]) (.EdDSA .P256 [])
      = .err (.Unsupported ("curve " ++ ECCCurve.P256.name ++ " for EdDSA")) :=
  ⟨(C5_curve_materialization (fun _ => .ok ()) (List.replicate 32 7) [] [] .SHA256 9
      .P256).1.mpr (by decide),
   (C5_curve_materialization (fun _ => .ok ()) [1] [] [] .SHA256 9 .P256).2.1
      (by decide),
   (C5_curve_materialization (fun _ => .ok ()) [1] [] [] .SHA256 9 .P256).2.2.1
      (by decide),
   (C5_curve_materialization (fun _ => .ok ()) (List.replicate 32 7) [] [] .SHA256 9
      .P256).2.2.2.1.mpr (by decide),
   (C5_curve_materialization (fun _ => .ok ()) [1] [] [] .SHA256 9 .P256).2.2.2.2.1
      (by decide),
   (C5_curve_materialization (fun _ => .ok ()) [1] [] [] .SHA256 9 .P256).2.2.2.2.2
      (by decide)⟩

/-- Claim C6: materializing a DSA, Elgamal or ECDSA variant fails with a
distinct not-implemented error for every choice of public parameters;
it never succeeds and never panics. -/
theorem C6_materialization_unimplemented (validate : RSAKey → Except PgpError Unit)
    (x : List Nat) (pp : PublicParams) :
    PlainSecretParams.as_repr validate (.DSA x) pp = .err (.Unimplemented ("DSA")) ∧
    PlainSecretParams.as_repr validate (.Elgamal x) pp
      = .err (.Unimplemented ("Elgamal")) ∧
    PlainSecretParams.as_repr validate (.ECDSA x) pp
      = .err (.Unimplemented ("ECDSA")) :=
  ⟨rfl, rfl, rfl⟩

/-- Counterexample to claim C2 as stated: the DSA variant whose single
field is the byte string [0] serializes in raw mode to the MPI [0, 0]
(bit length zero, minimal bytes empty) and parses back to the DSA variant
with the empty field — not to the original field bytes. -/
theorem C2_counterexample :
    parse_secret_params (PlainSecretParams.DSA [0]).to_writer_raw
        (PlainSecretParams.DSA [0]).tagOf = .ok [] (.DSA []) ∧
    PlainSecretParams.DSA [] ≠ PlainSecretParams.DSA [0] := by
  constructor
  · decide
  · decide

/-- Claim C2 (amended): for every supported algorithm variant whose fields
are in minimal MPI form (actual byte values, no leading zero octet, bit
length below 2^16), raw-mode serialization followed by parsing with the
same algorithm tag reproduces the variant exactly, field for field; in
general, whenever the minimal form of each field (its leading zero octets
stripped) fits the 2-byte bit-length prefix, parsing returns the variant
with every field replaced by its minimal form, so a field carrying leading
zero octets comes back with those octets stripped. -/
theorem C2_raw_roundtrip (p : PlainSecretParams) :
    (p.fieldsNormal = true →
      parse_secret_params p.to_writer_raw p.tagOf = .ok [] p) ∧
    (p.stripFields.fieldsNormal = true →
      parse_secret_params p.to_writer_raw p.tagOf = .ok [] p.stripFields) := by
  have hstrip : p.stripFields.fieldsNormal = true →
      parse_secret_params p.to_writer_raw p.tagOf = .ok [] p.stripFields := by
    intro h
    cases p with
    | RSA d pr q u =>
      simp only [PlainSecretParams.stripFields, PlainSecretParams.fieldsNormal,
        Bool.and_eq_true] at h
      obtain ⟨⟨⟨hd, hp⟩, hq⟩, hu⟩ := h
      show rsa_secret_params (write_mpi d ++ write_mpi pr ++ write_mpi q ++ write_mpi u)
        = .ok [] (.RSA (stripField d) (stripField pr) (stripField q) (stripField u))
      unfold rsa_secret_params
      rw [List.append_assoc, List.append_assoc]
      rw [mpi_write_read_strip d hd, ParseResult.bind_ok]
      rw [mpi_write_read_strip pr hp, ParseResult.bind_ok]
      rw [mpi_write_read_strip q hq, ParseResult.bind_ok]
      have hx := mpi_write_read_strip u hu []
      rw [List.append_nil] at hx
      rw [hx, ParseResult.bind_ok]
    | DSA x =>
      simp only [PlainSecretParams.stripFields, PlainSecretParams.fieldsNormal] at h
      simp only [PlainSecretParams.to_writer_raw, PlainSecretParams.tagOf,
        parse_secret_params, PlainSecretParams.stripFields]
      have hx := mpi_write_read_strip x h []
      rw [List.append_nil] at hx
      rw [hx, ParseResult.bind_ok]
    | ECDSA x =>
      simp only [PlainSecretParams.stripFields, PlainSecretParams.fieldsNormal] at h
      simp only [PlainSecretParams.to_writer_raw, PlainSecretParams.tagOf,
        parse_secret_params, PlainSecretParams.stripFields]
      have hx := mpi_write_read_strip x h []
      rw [List.append_nil] at hx
      rw [hx, ParseResult.bind_ok]
    | ECDH x =>
      simp only [PlainSecretParams.stripFields, PlainSecretParams.fieldsNormal] at h
      simp only [PlainSecretParams.to_writer_raw, PlainSecretParams.tagOf,
        parse_secret_params, PlainSecretParams.stripFields]
      have hx := mpi_write_read_strip x h []
      rw [List.append_nil] at hx
      rw [hx, ParseResult.bind_ok]
    | Elgamal x =>
      simp only [PlainSecretParams.stripFields, PlainSecretParams.fieldsNormal] at h
      simp only [PlainSecretParams.to_writer_raw, PlainSecretParams.tagOf,
        parse_secret_params, PlainSecretParams.stripFields]
      have hx := mpi_write_read_strip x h []
      rw [List.append_nil] at hx
      rw [hx, ParseResult.bind_ok]
    | EdDSA x =>
      simp only [PlainSecretParams.stripFields, PlainSecretParams.fieldsNormal] at h
      simp only [PlainSecretParams.to_writer_raw, PlainSecretParams.tagOf,
        parse_secret_params, PlainSecretParams.stripFields]
      have hx := mpi_write_read_strip x h []
      rw [List.append_nil] at hx
      rw [hx, ParseResult.bind_ok]
  refine ⟨?_, hstrip⟩
  intro h
  have hs : p.stripFields = p := stripFields_of_normal p h
  have hres := hstrip (by rw [hs]; exact h)
  rwa [hs] at hres

/-- Witness for C2 at a concrete RSA variant in minimal form and at a DSA
variant whose field carries a leading zero octet. -/
theorem C2_raw_roundtrip_witness :
    ((PlainSecretParams.RSA [1, 2] [3] [5] [7]).fieldsNormal = true ∧
      parse_secret_params (PlainSecretParams.RSA [1, 2] [3] [5] [7]).to_writer_raw
          (PlainSecretParams.RSA [1, 2] [3] [5] [7]).tagOf
        = .ok [] (.RSA [1, 2] [3] [5] [7])) ∧
    ((PlainSecretParams.DSA [0, 5]).stripFields.fieldsNormal = true ∧
      parse_secret_params (PlainSecretParams.DSA [0, 5]).to_writer_raw
          (PlainSecretParams.DSA [0, 5]).tagOf
        = .ok [] (PlainSecretParams.DSA [0, 5]).stripFields) :=
  ⟨⟨by decide, (C2_raw_roundtrip (.RSA [1, 2] [3] [5] [7])).1 (by decide)⟩,
   ⟨by decide, (C2_raw_roundtrip (.DSA [0, 5])).2 (by decide)⟩⟩

/-- Claim C7: for both parsers, an input truncated anywhere inside the
consumed region (including inside a 2-byte MPI bit-length prefix) parses to
an incomplete-input result — never to a malformed-content error (for the
secret-parameter parser on supported algorithm tags, no input at all yields
a malformed-content error), and never to a panic (both parsers are total
functions). -/
theorem C7_truncation_incomplete :
    (∀ (data : List Nat) (alg : PublicKeyAlgorithm), alg.hasSecretParams = true →
      parse_secret_params data alg ≠ .error ∧
      PlainSecretParams.from_slice data alg ≠ .error .Invalid) ∧
    (∀ (data : List Nat) (alg : PublicKeyAlgorithm) (r : List Nat)
        (v : PlainSecretParams) (n : Nat),
      parse_secret_params data alg = .ok r v → n < data.length - r.length →
      parse_secret_params (data.take n) alg = .incomplete ∧
      PlainSecretParams.from_slice (data.take n) alg = .error .Incomplete) ∧
    (∀ (input : List Nat) (pv : Version) (r : List Nat) (v : OnePassSignature) (n : Nat),
      OnePassSignature.parse input pv = .ok r v → n < input.length - r.length →
      OnePassSignature.parse (input.take n) pv = .incomplete ∧
      OnePassSignature.from_slice pv (input.take n) = .error .Incomplete) := by
  refine ⟨?_, ?_, ?_⟩
  · intro data alg halg
    refine ⟨parse_secret_params_ne_error data alg halg, ?_⟩
    unfold PlainSecretParams.from_slice
    cases hp : parse_secret_params data alg with
    | ok r v => simp
    | incomplete => simp
    | error => exact absurd hp (parse_secret_params_ne_error data alg halg)
  · intro data alg r v n hok hn
    obtain ⟨c, hclen, _, _, hcinc, _⟩ := consumes_parse_secret_params alg data r v hok
    have hinc : parse_secret_params (data.take n) alg = .incomplete :=
      hcinc n (by omega)
    refine ⟨hinc, ?_⟩
    unfold PlainSecretParams.from_slice
    rw [hinc]
  · intro input pv r v n hok hn
    obtain ⟨c, hclen, _, _, hcinc, _⟩ := consumes_ops_parse pv input r v hok
    have hinc : OnePassSignature.parse (input.take n) pv = .incomplete :=
      hcinc n (by omega)
    refine ⟨hinc, ?_⟩
    unfold OnePassSignature.from_slice
    rw [hinc]

/-- Witness for C7: a truncated DSA secret-parameter body and a truncated
one-pass-signature body both report incomplete input. -/
theorem C7_truncation_incomplete_witness :
    (parse_secret_params [] .DSA ≠ .error ∧
      PlainSecretParams.from_slice [] .DSA ≠ .error .Invalid) ∧
    (parse_secret_params (([0, 8, 255] : List Nat).take 2) .DSA = .incomplete ∧
      PlainSecretParams.from_slice (([0, 8, 255] : List Nat).take 2) .DSA
        = .error .Incomplete) ∧
    (OnePassSignature.parse (([3, 0, 2, 1, 9, 9, 9, 9, 9, 9, 9, 9, 1] : List Nat).take 5)
        .New = .incomplete ∧
      OnePassSignature.from_slice .New
        (([3, 0, 2, 1, 9, 9, 9, 9, 9, 9, 9, 9, 1] : List Nat).take 5)
        = .error .Incomplete) :=
  ⟨C7_truncation_incomplete.1 [] .DSA (by decide),
   C7_truncation_incomplete.2.1 [0, 8, 255] .DSA [] (.DSA [255]) 2 (by decide) (by decide),
   C7_truncation_incomplete.2.2 [3, 0, 2, 1, 9, 9, 9, 9, 9, 9, 9, 9, 1] .New []
     { packet_version := .New, version := 3, typ := .Binary, hash_algorithm := .SHA1,
       pub_algorithm := .RSA, key_id := [9, 9, 9, 9, 9, 9, 9, 9], last := 1 } 5
     (by decide) (by decide)⟩

/-- Claim C10: both `from_slice` entry points silently discard trailing
bytes: appending extra bytes to an input that parses successfully yields
the same successful result. -/
theorem C10_trailing_bytes_ignored :
    (∀ (data s : List Nat) (alg : PublicKeyAlgorithm) (v : PlainSecretParams),
      PlainSecretParams.from_slice data alg = .ok v →
      PlainSecretParams.from_slice (data ++ s) alg = .ok v) ∧
    (∀ (input s : List Nat) (pv : Version) (v : OnePassSignature),
      OnePassSignature.from_slice pv input = .ok v →
      OnePassSignature.from_slice pv (input ++ s) = .ok v) := by
  constructor
  · intro data s alg v h
    unfold PlainSecretParams.from_slice at h ⊢
    cases hp : parse_secret_params data alg with
    | ok r v' =>
      rw [hp] at h
      simp only at h
      cases h
      obtain ⟨c, _, _, _, _, happ⟩ := consumes_parse_secret_params alg data r v hp
      have happ2 : parse_secret_params (data ++ s) alg = .ok (r ++ s) v := happ s
      rw [happ2]
    | incomplete => rw [hp] at h; exact absurd h (by simp)
    | error => rw [hp] at h; exact absurd h (by simp)
  · intro input s pv v h
    unfold OnePassSignature.from_slice at h ⊢
    cases hp : OnePassSignature.parse input pv with
    | ok r v' =>
      rw [hp] at h
      simp only at h
      cases h
      obtain ⟨c, _, _, _, _, happ⟩ := consumes_ops_parse pv input r v hp
      have happ2 : OnePassSignature.parse (input ++ s) pv = .ok (r ++ s) v := happ s
      rw [happ2]
    | incomplete => rw [hp] at h; exact absurd h (by simp)
    | error => rw [hp] at h; exact absurd h (by simp)

/-- Witness for C10: appending a junk byte to a parseable DSA body and to a
13-byte one-pass-signature body leaves both parsed values unchanged. -/
theorem C10_trailing_bytes_ignored_witness :
    PlainSecretParams.from_slice ([0, 8, 255] ++ [7]) .DSA = .ok (.DSA [255]) ∧
    OnePassSignature.from_slice .New ([3, 0, 2, 1, 9, 9, 9, 9, 9, 9, 9, 9, 1] ++ [7])
      = .ok { packet_version := .New, version := 3, typ := .Binary,
              hash_algorithm := .SHA1, pub_algorithm := .RSA,
              key_id := [9, 9, 9, 9, 9, 9, 9, 9], last := 1 } :=
  ⟨C10_trailing_bytes_ignored.1 [0, 8, 255] [7] .DSA (.DSA [255]) rfl,
   C10_trailing_bytes_ignored.2 [3, 0, 2, 1, 9, 9, 9, 9, 9, 9, 9, 9, 1] [7] .New
     { packet_version := .New, version := 3, typ := .Binary, hash_algorithm := .SHA1,
       pub_algorithm := .RSA, key_id := [9, 9, 9, 9, 9, 9, 9, 9], last := 1 }
     rfl⟩

theorem ops_parse_ok (pv : Version) (v t h pa l : Nat) (k rest : List Nat)
    (typ : SignatureType) (hash : HashAlgorithm) (palg : PublicKeyAlgorithm)
    (hk : k.length = 8) (h1 : SignatureType.from_u8 t = some typ)
    (h2 : HashAlgorithm.from_u8 h = some hash)
    (h3 : PublicKeyAlgorithm.from_u8 pa = some palg) :
    OnePassSignature.parse (v :: t :: h :: pa :: (k ++ l :: rest)) pv
      = .ok rest { packet_version := pv, version := v, typ := typ,
                   hash_algorithm := hash, pub_algorithm := palg,
                   key_id := k, last := l } := by
  have ht8 : take8 (k ++ l :: rest) = .ok (l :: rest) k := by
    unfold take8
    rw [if_pos (by rw [List.length_append, hk]; simp)]
    rw [List.drop_left' hk, List.take_left' hk]
  have hkey : map_res take8 KeyId.from_slice (k ++ l :: rest) = .ok (l :: rest) k := by
    simp only [map_res, ht8, ParseResult.bind_ok, KeyId.from_slice, hk, reduceIte]
  unfold OnePassSignature.parse
  simp only [be_u8, map_opt, ParseResult.bind_ok, h1, h2, h3, hkey]

theorem ops_writer_take (pv : Version) (v t h pa l : Nat) (k rest : List Nat)
    (typ : SignatureType) (hash : HashAlgorithm) (palg : PublicKeyAlgorithm)
    (hk : k.length = 8) (h1 : SignatureType.from_u8 t = some typ)
    (h2 : HashAlgorithm.from_u8 h = some hash)
    (h3 : PublicKeyAlgorithm.from_u8 pa = some palg) :
    OnePassSignature.to_writer
        { packet_version := pv, version := v, typ := typ,
          hash_algorithm := hash, pub_algorithm := palg, key_id := k, last := l }
      = (v :: t :: h :: pa :: (k ++ l :: rest)).take 13 := by
  have e1 := sigType_toU8_from_u8 h1
  have e2 := hashAlg_toU8_from_u8 h2
  have e3 := pubAlg_toU8_from_u8 h3
  have htail : (k ++ l :: rest).take 9 = k ++ [l] := by
    rw [List.take_append_eq_append_take, List.take_of_length_le (by omega), hk]
    simp
  have htake : (v :: t :: h :: pa :: (k ++ l :: rest)).take 13
      = v :: t :: h :: pa :: (k ++ [l]) := by
    simp only [List.take_succ_cons, htail]
  rw [htake]
  unfold OnePassSignature.to_writer
  simp only [e1, e2, e3]
  simp

/-- Counterexample to claim C8 as stated: a 14-byte input (valid 13-byte
body plus one trailing byte) parses successfully, but re-serializing the
result writes only the 13 consumed bytes, not the full input. -/
theorem C8_counterexample :
    OnePassSignature.parse [3, 0, 2, 1, 9, 9, 9, 9, 9, 9, 9, 9, 1, 77] .New
      = .ok [77] { packet_version := .New, version := 3, typ := .Binary,
                   hash_algorithm := .SHA1, pub_algorithm := .RSA,
                   key_id := [9, 9, 9, 9, 9, 9, 9, 9], last := 1 } ∧
    OnePassSignature.to_writer
        { packet_version := .New, version := 3, typ := .Binary,
          hash_algorithm := .SHA1, pub_algorithm := .RSA,
          key_id := [9, 9, 9, 9, 9, 9, 9, 9], last := 1 }
      ≠ [3, 0, 2, 1, 9, 9, 9, 9, 9, 9, 9, 9, 1, 77] := by
  constructor
  · decide
  · decide

/-- Claim C8 (amended): the one-pass-signature parser fails with a
malformed-content error whenever the signature-type, hash-algorithm or
public-key-algorithm byte does not map to a known enumeration value; for
every input whose three enumerated bytes are in range and which carries at
least 13 bytes, parsing succeeds and re-serializing the result reproduces
the 13 consumed bytes (the input's first 13 bytes; trailing bytes are not
re-emitted). -/
theorem C8_enum_byte_gate :
    (∀ (pv : Version) (v t : Nat) (rest : List Nat),
      SignatureType.from_u8 t = none →
      OnePassSignature.parse (v :: t :: rest) pv = .error) ∧
    (∀ (pv : Version) (v t h : Nat) (rest : List Nat) (typ : SignatureType),
      SignatureType.from_u8 t = some typ → HashAlgorithm.from_u8 h = none →
      OnePassSignature.parse (v :: t :: h :: rest) pv = .error) ∧
    (∀ (pv : Version) (v t h pa : Nat) (rest : List Nat) (typ : SignatureType)
        (hash : HashAlgorithm),
      SignatureType.from_u8 t = some typ → HashAlgorithm.from_u8 h = some hash →
      PublicKeyAlgorithm.from_u8 pa = none →
      OnePassSignature.parse (v :: t :: h :: pa :: rest) pv = .error) ∧
    (∀ (pv : Version) (v t h pa l : Nat) (k rest : List Nat) (typ : SignatureType)
        (hash : HashAlgorithm) (palg : PublicKeyAlgorithm),
      k.length = 8 →
      SignatureType.from_u8 t = some typ → HashAlgorithm.from_u8 h = some hash →
      PublicKeyAlgorithm.from_u8 pa = some palg →
      OnePassSignature.parse (v :: t :: h :: pa :: (k ++ l :: rest)) pv
        = .ok rest { packet_version := pv, version := v, typ := typ,
                     hash_algorithm := hash, pub_algorithm := palg,
                     key_id := k, last := l } ∧
      OnePassSignature.to_writer
          { packet_version := pv, version := v, typ := typ,
            hash_algorithm := hash, pub_algorithm := palg, key_id := k, last := l }
        = (v :: t :: h :: pa :: (k ++ l :: rest)).take 13) := by
  refine ⟨?_, ?_, ?_, ?_⟩
  · intro pv v t rest h1
    unfold OnePassSignature.parse
    simp only [be_u8, map_opt, ParseResult.bind_ok, h1, ParseResult.bind_error]
  · intro pv v t h rest typ h1 h2
    unfold OnePassSignature.parse
    simp only [be_u8, map_opt, ParseResult.bind_ok, h1, h2, ParseResult.bind_error]
  · intro pv v t h pa rest typ hash h1 h2 h3
    unfold OnePassSignature.parse
    simp only [be_u8, map_opt, ParseResult.bind_ok, h1, h2, h3, ParseResult.bind_error]
  · intro pv v t h pa l k rest typ hash palg hk h1 h2 h3
    exact ⟨ops_parse_ok pv v t h pa l k rest typ hash palg hk h1 h2 h3,
      ops_writer_take pv v t h pa l k rest typ hash palg hk h1 h2 h3⟩

/-- Witness for C8: an out-of-range signature-type byte, hash-algorithm
byte and public-key-algorithm byte each produce a malformed-content error,
and a fully in-range 13-byte body parses and round-trips. -/
theorem C8_enum_byte_gate_witness :
    OnePassSignature.parse [0, 3, 0] .New = .error ∧
    OnePassSignature.parse [0, 0, 4, 0] .New = .error ∧
    OnePassSignature.parse [0, 0, 2, 0, 0] .New = .error ∧
    (OnePassSignature.parse (0 :: 0 :: 2 :: 1 :: ([9, 9, 9, 9, 9, 9, 9, 9] ++ 1 :: [])) .New
        = .ok [] { packet_version := .New, version := 0, typ := .Binary,
                   hash_algorithm := .SHA1, pub_algorithm := .RSA,
                   key_id := [9, 9, 9, 9, 9, 9, 9, 9], last := 1 } ∧
      OnePassSignature.to_writer
          { packet_version := .New, version := 0, typ := .Binary,
            hash_algorithm := .SHA1, pub_algorithm := .RSA,
            key_id := [9, 9, 9, 9, 9, 9, 9, 9], last := 1 }
        = (0 :: 0 :: 2 :: 1 :: ([9, 9, 9, 9, 9, 9, 9, 9] ++ 1 :: [])).take 13) :=
  ⟨C8_enum_byte_gate.1 .New 0 3 [0] (by decide),
   C8_enum_byte_gate.2.1 .New 0 0 4 [0] .Binary (by decide) (by decide),
   C8_enum_byte_gate.2.2.1 .New 0 0 2 0 [0] .Binary .SHA1 (by decide) (by decide)
     (by decide),
   C8_enum_byte_gate.2.2.2 .New 0 0 2 1 1 [9, 9, 9, 9, 9, 9, 9, 9] [] .Binary .SHA1
     .RSA (by decide) (by decide) (by decide) (by decide)⟩

/-- Counterexample to claim C9 as stated: the example body 03 00 02 01
followed by an 8-byte key id and 01 parses with public-key-algorithm byte
01 mapping to RSA (encrypt-or-sign), which is a different enumeration value
from RSA Sign-Only (byte 03). -/
theorem C9_counterexample :
    OnePassSignature.parse [3, 0, 2, 1, 9, 8, 7, 6, 5, 4, 3, 2, 1] .New
      = .ok [] { packet_version := .New, version := 3, typ := .Binary,
                 hash_algorithm := .SHA1, pub_algorithm := .RSA,
                 key_id := [9, 8, 7, 6, 5, 4, 3, 2], last := 1 } ∧
    PublicKeyAlgorithm.RSA ≠ PublicKeyAlgorithm.RSASign := by
  constructor
  · decide
  · decide

/-- Claim C9 (amended): serializing a one-pass signature writes exactly 13
bytes in the fixed order version, signature type, hash algorithm,
public-key algorithm, 8-byte key id, last flag, with no length prefix and
no padding; the example body 03 00 02 01 followed by an 8-byte key id and
01 parses to version 3, the binary-document signature type, the hash mapped
from 02, the RSA (encrypt-or-sign) public-key algorithm (byte 01; RSA
Sign-Only is byte 03), that key id and last flag 1, and re-serializes to
the identical 13 bytes. -/
theorem C9_fixed_layout :
    (∀ sig : OnePassSignature,
      sig.to_writer = [sig.version, sig.typ.toU8, sig.hash_algorithm.toU8,
        sig.pub_algorithm.toU8] ++ sig.key_id ++ [sig.last]) ∧
    (∀ sig : OnePassSignature, sig.key_id.length = 8 → sig.to_writer.length = 13) ∧
    (∀ (pv : Version) (k : List Nat), k.length = 8 →
      OnePassSignature.parse ([3, 0, 2, 1] ++ (k ++ [1])) pv
        = .ok [] { packet_version := pv, version := 3, typ := .Binary,
                   hash_algorithm := .SHA1, pub_algorithm := .RSA,
                   key_id := k, last := 1 } ∧
      OnePassSignature.to_writer
          { packet_version := pv, version := 3, typ := .Binary,
            hash_algorithm := .SHA1, pub_algorithm := .RSA, key_id := k, last := 1 }
        = [3, 0, 2, 1] ++ (k ++ [1])) := by
  refine ⟨fun sig => rfl, ?_, ?_⟩
  · intro sig hk
    unfold OnePassSignature.to_writer
    simp [hk]
  · intro pv k hk
    constructor
    · exact ops_parse_ok pv 3 0 2 1 1 k [] .Binary .SHA1 .RSA hk (by decide)
        (by decide) (by decide)
    · unfold OnePassSignature.to_writer
      simp [SignatureType.toU8, HashAlgorithm.toU8, PublicKeyAlgorithm.toU8]

/-- Witness for C9 at a concrete signature value and a concrete key id. -/
theorem C9_fixed_layout_witness :
    OnePassSignature.to_writer
        { packet_version := .New, version := 3, typ := .Binary,
          hash_algorithm := .SHA1, pub_algorithm := .RSA,
          key_id := [9, 8, 7, 6, 5, 4, 3, 2], last := 1 }
      = [3, SignatureType.Binary.toU8, HashAlgorithm.SHA1.toU8,
         PublicKeyAlgorithm.RSA.toU8] ++ [9, 8, 7, 6, 5, 4, 3, 2] ++ [1] ∧
    (OnePassSignature.to_writer
        { packet_version := .New, version := 3, typ := .Binary,
          hash_algorithm := .SHA1, pub_algorithm := .RSA,
          key_id := [9, 8, 7, 6, 5, 4, 3, 2], last := 1 }).length = 13 ∧
    (OnePassSignature.parse ([3, 0, 2, 1] ++ ([9, 8, 7, 6, 5, 4, 3, 2] ++ [1])) .New
        = .ok [] { packet_version := .New, version := 3, typ := .Binary,
                   hash_algorithm := .SHA1, pub_algorithm := .RSA,
                   key_id := [9, 8, 7, 6, 5, 4, 3, 2], last := 1 } ∧
      OnePassSignature.to_writer
          { packet_version := .New, version := 3, typ := .Binary,
            hash_algorithm := .SHA1, pub_algorithm := .RSA,
            key_id := [9, 8, 7, 6, 5, 4, 3, 2], last := 1 }
        = [3, 0, 2, 1] ++ ([9, 8, 7, 6, 5, 4, 3, 2] ++ [1])) :=
  ⟨C9_fixed_layout.1
     { packet_version := .New, version := 3, typ := .Binary,
       hash_algorithm := .SHA1, pub_algorithm := .RSA,
       key_id := [9, 8, 7, 6, 5, 4, 3, 2], last := 1 },
   C9_fixed_layout.2.1
     { packet_version := .New, version := 3, typ := .Binary,
       hash_algorithm := .SHA1, pub_algorithm := .RSA,
       key_id := [9, 8, 7, 6, 5, 4, 3, 2], last := 1 } (by decide),
   C9_fixed_layout.2.2 .New [9, 8, 7, 6, 5, 4, 3, 2] (by decide)⟩

end RPGP
